import Mathlib

set_option autoImplicit false

/-! Verification of the Agama particle-array layer (particles_base.h) and of the
generic batch-evaluation dispatcher callAnyFunctionOnArray (py_wrapper.cpp).

Modelling conventions: C doubles are rationals; numpy arrays are Lean lists;
a Python error state (PyErr_SetString followed by returning NULL) is an Except
error value; the opaque computation function fnc is a pure function that may
raise a C++ exception, modelled by an Except result. -/

/-! ## particles_base.h : particle containers and the conversion strategy table -/

/-- The three standard coordinate systems coord::Car, coord::Cyl, coord::Sph
(declared in coord.h, an external collaborator of this layer). -/
inductive CoordT where
  | Car
  | Cyl
  | Sph

/-- The two particle kinds handled by particles_base.h: coord::PosVelT
(position and velocity) and coord::PosT (position only), each taggable with a
coordinate system. -/
inductive PKind where
  | posVel
  | pos

/-- Carrier type of a particle of kind k in coordinate system c, given carriers
PosC for coord::PosT and PosVelC for coord::PosVelT (their contents live in
coord.h and are kept abstract here). -/
@[reducible] def ParticleTy (PosC PosVelC : CoordT → Type) : PKind → CoordT → Type
  | .posVel, c => PosVelC c
  | .pos,    c => PosC c

/-- particles::PointMassArray<ParticleT>: the member data is a
std::vector<std::pair<ParticleT, double>> of particles with masses. -/
structure PointMassArray (ParticleT : Type) where
  data : List (ParticleT × ℚ)

/-- PointMassArray::size(): returns data.size(). -/
def PointMassArray.size {P : Type} (arr : PointMassArray P) : Nat :=
  arr.data.length

/-- PointMassArray::add(first, second): data.push_back(ElemType(first, second));
the mass argument is not validated. -/
def PointMassArray.add {P : Type} (arr : PointMassArray P) (first : P)
    (second : ℚ) : PointMassArray P :=
  ⟨arr.data ++ [(first, second)]⟩

/-- PointMassArray::totalMass(): sum = 0; for i in [0, size()): sum += data[i].second. -/
def PointMassArray.totalMass {P : Type} (arr : PointMassArray P) : ℚ :=
  arr.data.foldl (fun sum e => sum + e.2) 0

/-- The conversion constructor PointMassArray(const PointMassArray<OtherParticleT>&):
for i in [0, src.size()): data.push_back(ElemType(conv(src[i].first), src[i].second)),
where conv is the Converter<OtherParticleT, ParticleT> instance. -/
def PointMassArray.ofOther {A B : Type} (conv : A → B) (src : PointMassArray A) :
    PointMassArray B :=
  ⟨src.data.map (fun e => (conv e.1, e.2))⟩

/-- The compile-time strategy table formed by the Converter<SrcT, DestT> partial
specializations of particles_base.h: posvel-to-posvel (delegates to
coord::toPosVel), posvel-to-pos (coord::toPos on a pos/vel source, dropping
velocity), and pos-to-pos (coord::toPos), each generic over the source and
destination coordinate systems.  The primary template declares operator()
without any implementation, so a pair with no specialization (pos-to-posvel)
fails while building (a link error), modelled here as none.  The
coordinate-transform primitives are external (coord.h) and passed as
parameters. -/
def converterFor (PosC PosVelC : CoordT → Type)
    (toPosVel : (sc : CoordT) → (dc : CoordT) → PosVelC sc → PosVelC dc)
    (toPosFromVel : (sc : CoordT) → (dc : CoordT) → PosVelC sc → PosC dc)
    (toPos : (sc : CoordT) → (dc : CoordT) → PosC sc → PosC dc) :
    (sk : PKind) → (sc : CoordT) → (dk : PKind) → (dc : CoordT) →
      Option (ParticleTy PosC PosVelC sk sc → ParticleTy PosC PosVelC dk dc)
  | .posVel, sc, .posVel, dc => some (toPosVel sc dc)
  | .posVel, sc, .pos,    dc => some (toPosFromVel sc dc)
  | .pos,    sc, .pos,    dc => some (toPos sc dc)
  | .pos,    _,  .posVel, _  => none

/-! ## py_wrapper.cpp : the generic batch dispatcher -/

/-- INPUT_VALUE of py_wrapper.cpp.  Only INPUT_VALUE_TRIPLET and
INPUT_VALUE_SEXTET have parseTuple and error-string specializations, and only
they are instantiated in the file (INPUT_VALUE_SINGLE is declared in the enum
but never usable). -/
inductive INPUT_VALUE where
  | TRIPLET
  | SEXTET

/-- inputLength<numArgs>(): the number of floats describing one input point. -/
def inputLength : INPUT_VALUE → Nat
  | .TRIPLET => 3
  | .SEXTET  => 6

/-- OUTPUT_VALUE of py_wrapper.cpp.  Only these three members have
formatTuple, allocOutputArr and formatOutputArr specializations and only they
are instantiated in the file (OUTPUT_VALUE_SEXTET and
OUTPUT_VALUE_TRIPLET_AND_TRIPLET only have outputLength). -/
inductive OUTPUT_VALUE where
  | SINGLE
  | TRIPLET
  | TRIPLET_AND_SEXTET

/-- outputLength<numOutput>(): size of the result buffer for one input point. -/
def outputLength : OUTPUT_VALUE → Nat
  | .SINGLE => 1
  | .TRIPLET => 3
  | .TRIPLET_AND_SEXTET => 9

/-- errStrInvalidArrayDim<numArgs>(). -/
def errStrInvalidArrayDim : INPUT_VALUE → String
  | .TRIPLET => "Input does not contain valid Nx3 array"
  | .SEXTET  => "Input does not contain valid Nx6 array"

/-- errStrInvalidInput<numArgs>(). -/
def errStrInvalidInput : INPUT_VALUE → String
  | .TRIPLET => "Input does not contain valid data (either 3 numbers for a single point or a Nx3 array)"
  | .SEXTET  => "Input does not contain valid data (either 6 numbers for a single point or a Nx6 array)"

/-- parseTuple<numArgs>(args, input): PyArg_ParseTuple with numArgs double
format units, succeeding exactly when args is a flat tuple of numArgs numbers. -/
def parseTuple (a : INPUT_VALUE) (xs : List ℚ) : Option (List ℚ) :=
  if xs.length = inputLength a then some xs else none

/-- The possible argument lists of a dispatcher call, after Python-level
classification:
nums - a flat tuple of float arguments;
arr1 - one argument convertible to a 1-d double array;
arr2 - one argument convertible to a 2-d double array of rows.length rows,
each of length d2 (numpy arrays are rectangular);
arrOther - one argument convertible to an array whose ndim is neither 1 nor 2;
notAnArray - one argument on which PyArray_FROM_OTF fails. -/
inductive PyInput where
  | nums (xs : List ℚ)
  | arr1 (xs : List ℚ)
  | arr2 (d2 : Nat) (rows : List (List ℚ))
  | arrOther
  | notAnArray

/-- The Python objects produced by the dispatcher:
scalar  - Py_BuildValue of one float;
tup     - Py_BuildValue of a flat tuple of floats;
tupPair - Py_BuildValue of two nested tuples, as in the (ddd)(dddddd) format;
arr1d   - a 1-d numpy array;
arr2d   - a 2-d numpy array given by its rows;
arrPair - a tuple of two separately allocated 2-d numpy arrays. -/
inductive PyOutput where
  | scalar (x : ℚ)
  | tup (xs : List ℚ)
  | tupPair (xs ys : List ℚ)
  | arr1d (xs : List ℚ)
  | arr2d (rows : List (List ℚ))
  | arrPair (rows1 rows2 : List (List ℚ))

/-- The Python-level error states raised by callAnyFunctionOnArray
(PyErr_SetString with PyExc_ValueError, then returning NULL). -/
inductive DispatchError where
  | notAnArray (msg : String)
  | invalidShape (msg : String)
  | invalidInput (msg : String)
  | exception (msg : String)

/-- Entries result[0], result[1], result[2] of a result buffer (missing
entries read as 0; in the C code the buffer always has outputLength slots). -/
def firstTriplet (res : List ℚ) : List ℚ :=
  (List.range 3).map (fun d => res.getD d 0)

/-- Entries result[3] .. result[8] of a result buffer. -/
def lastSextet (res : List ℚ) : List ℚ :=
  (List.range 6).map (fun d => res.getD (d + 3) 0)

/-- formatTuple<numOutput>(result): the single-point output object. -/
def formatTuple : OUTPUT_VALUE → List ℚ → PyOutput
  | .SINGLE, res => .scalar (res.getD 0 0)
  | .TRIPLET, res => .tup (firstTriplet res)
  | .TRIPLET_AND_SEXTET, res => .tupPair (firstTriplet res) (lastSextet res)

/-- The shape of the storage produced by allocOutputArr<numOutput>: one 1-d
array, one N-by-3 array, or a pair of an N-by-3 and an N-by-6 array. -/
def OutBufT : OUTPUT_VALUE → Type
  | .SINGLE => List ℚ
  | .TRIPLET => List (List ℚ)
  | .TRIPLET_AND_SEXTET => List (List ℚ) × List (List ℚ)

/-- allocOutputArr<numOutput>(size): PyArray_SimpleNew leaves the contents
unspecified; zeros stand in for the indeterminate initial values (the loop
overwrites every row before a buffer is returned). -/
def allocOutputArr : (fmt : OUTPUT_VALUE) → Nat → OutBufT fmt
  | .SINGLE, size => List.replicate size 0
  | .TRIPLET, size => List.replicate size (List.replicate 3 0)
  | .TRIPLET_AND_SEXTET, size =>
      (List.replicate size (List.replicate 3 0),
       List.replicate size (List.replicate 6 0))

/-- formatOutputArr<numOutput>(result, index, resultObj): writes the values of
one point into row index of the output buffer(s); for the combined format the
first 3 values go into row index of the first array and the last 6 into row
index of the second. -/
def formatOutputArr : (fmt : OUTPUT_VALUE) → List ℚ → Nat → OutBufT fmt → OutBufT fmt
  | .SINGLE, res, index, buf => List.set buf index (res.getD 0 0)
  | .TRIPLET, res, index, buf => List.set buf index (firstTriplet res)
  | .TRIPLET_AND_SEXTET, res, index, buf =>
      (List.set buf.1 index (firstTriplet res),
       List.set buf.2 index (lastSextet res))

/-- The Python object returned for a batch, built from the output buffer(s). -/
def bufToPy : (fmt : OUTPUT_VALUE) → OutBufT fmt → PyOutput
  | .SINGLE, buf => .arr1d buf
  | .TRIPLET, buf => .arr2d buf
  | .TRIPLET_AND_SEXTET, buf => .arrPair buf.1 buf.2

/-- The evaluation loop of callAnyFunctionOnArray: for i in
[index, index + left): fnc(self, row i of inp, result); then
formatOutputArr<numOutput>(result, i, resultObj).  The caller-supplied input
array inp is threaded through explicitly so that theorems can speak about its
final contents; the loop body reads it and never stores to it.  An exception
from fnc aborts the loop. -/
def batchLoop (fmt : OUTPUT_VALUE) (fnc : List ℚ → Except String (List ℚ)) :
    Nat → Nat → List (List ℚ) → OutBufT fmt →
      Except String (OutBufT fmt) × List (List ℚ)
  | _,     0,        inp, buf => (.ok buf, inp)
  | index, left + 1, inp, buf =>
    match fnc (inp.getD index []) with
    | .error e => (.error e, inp)
    | .ok res  => batchLoop fmt fnc (index + 1) left inp (formatOutputArr fmt res index buf)

/-- callAnyFunctionOnArray<numArgs, numOutput>(self, args, fnc): the generic
dispatcher.  It first tries parseTuple (a flat argument list describing one
point); otherwise it interprets the single argument as an array: a 1-d array
of length numArgs is one point, a 2-d N-by-numArgs array is N points handled
by an output-buffer loop, and anything else is an error.  A C++ exception
anywhere in the call is caught and surfaced as a ValueError whose text
prepends the words Exception occured.  The result is paired with the final
contents of the caller-supplied argument data. -/
def callAnyFunctionOnArray (a : INPUT_VALUE) (fmt : OUTPUT_VALUE)
    (fnc : List ℚ → Except String (List ℚ)) :
    PyInput → Except DispatchError PyOutput × PyInput
  | .nums xs =>
    match parseTuple a xs with
    | some input =>
      (match fnc input with
       | .ok res => .ok (formatTuple fmt res)
       | .error e => .error (.exception ("Exception occured: " ++ e)),
       .nums xs)
    | none =>
      if xs.length = 1 then
        -- a lone float argument is converted by PyArray_FROM_OTF to a 0-d
        -- array, whose ndim is neither 1 nor 2
        (.error (.invalidShape (errStrInvalidArrayDim a)), .nums xs)
      else
        (.error (.invalidInput (errStrInvalidInput a)), .nums xs)
  | .arr1 xs =>
    if xs.length = inputLength a then
      (match fnc xs with
       | .ok res => .ok (formatTuple fmt res)
       | .error e => .error (.exception ("Exception occured: " ++ e)),
       .arr1 xs)
    else
      (.error (.invalidShape (errStrInvalidArrayDim a)), .arr1 xs)
  | .arr2 d2 rows =>
    if d2 = inputLength a then
      match batchLoop fmt fnc 0 rows.length rows (allocOutputArr fmt rows.length) with
      | (.ok buf, inp2) => (.ok (bufToPy fmt buf), .arr2 d2 inp2)
      | (.error e, inp2) =>
          (.error (.exception ("Exception occured: " ++ e)), .arr2 d2 inp2)
    else
      (.error (.invalidShape (errStrInvalidArrayDim a)), .arr2 d2 rows)
  | .arrOther => (.error (.invalidShape (errStrInvalidArrayDim a)), .arrOther)
  | .notAnArray =>
      (.error (.notAnArray "Input does not contain a valid array"), .notAnArray)

/-- Pointwise evaluation of fnc on every row, stopping at the first exception:
the reference semantics against which the imperative loop is proved. -/
def runAll (fnc : List ℚ → Except String (List ℚ)) :
    List (List ℚ) → Except String (List (List ℚ))
  | [] => .ok []
  | r :: rs =>
    match fnc r with
    | .error e => .error e
    | .ok v =>
      match runAll fnc rs with
      | .error e => .error e
      | .ok vs => .ok (v :: vs)

/-- The batch output object assembled from the per-row results. -/
def batchOutput (fmt : OUTPUT_VALUE) (results : List (List ℚ)) : PyOutput :=
  match fmt with
  | .SINGLE => .arr1d (results.map (fun r => r.getD 0 0))
  | .TRIPLET => .arr2d (results.map firstTriplet)
  | .TRIPLET_AND_SEXTET =>
      .arrPair (results.map firstTriplet) (results.map lastSextet)

/-- Row index of a batch output, presented as the corresponding single-point
output object. -/
def outputRow : OUTPUT_VALUE → PyOutput → Nat → Option PyOutput
  | .SINGLE, .arr1d xs, index => xs[index]?.map .scalar
  | .TRIPLET, .arr2d rows, index => rows[index]?.map .tup
  | .TRIPLET_AND_SEXTET, .arrPair rows1 rows2, index =>
    match rows1[index]?, rows2[index]? with
    | some x, some y => some (.tupPair x y)
    | _, _ => none
  | _, _, _ => none

/-- The cumulative effect of the output-writing loop on a buffer, starting at
the given row index, one formatOutputArr call per result. -/
def writeAll (fmt : OUTPUT_VALUE) :
    List (List ℚ) → Nat → OutBufT fmt → OutBufT fmt
  | [], _, buf => buf
  | r :: rs, index, buf => writeAll fmt rs (index + 1) (formatOutputArr fmt r index buf)

/-- Successive in-place updates of a list of rows, one List.set per result. -/
def setEach {α : Type} (f : List ℚ → α) :
    List (List ℚ) → Nat → List α → List α
  | [], _, buf => buf
  | r :: rs, index, buf => setEach f rs (index + 1) (buf.set index (f r))

/-! ## Helper lemmas -/

theorem foldl_add_snd {P : Type} (l : List (P × ℚ)) :
    ∀ acc : ℚ, l.foldl (fun sum e => sum + e.2) acc = acc + (l.map Prod.snd).sum := by
  induction l with
  | nil => intro acc; simp
  | cons e l ih => intro acc; simp [ih]; ring

theorem totalMass_eq_sum {P : Type} (arr : PointMassArray P) :
    arr.totalMass = (arr.data.map Prod.snd).sum := by
  have h := foldl_add_snd arr.data 0
  simpa [PointMassArray.totalMass] using h

theorem runAll_length (fnc : List ℚ → Except String (List ℚ)) :
    ∀ rows results, runAll fnc rows = .ok results → results.length = rows.length := by
  intro rows
  induction rows with
  | nil => intro results h; simp [runAll] at h; simp [← h]
  | cons r rs ih =>
    intro results h
    simp only [runAll] at h
    cases hr : fnc r with
    | error e => rw [hr] at h; exact absurd h (by simp)
    | ok v =>
      rw [hr] at h
      cases hrs : runAll fnc rs with
      | error e => rw [hrs] at h; exact absurd h (by simp)
      | ok vs =>
        rw [hrs] at h
        cases h
        simp [ih vs hrs]

theorem runAll_getD (fnc : List ℚ → Except String (List ℚ)) :
    ∀ rows results, runAll fnc rows = .ok results →
    ∀ i, i < rows.length → fnc (rows.getD i []) = .ok (results.getD i []) := by
  intro rows
  induction rows with
  | nil => intro results _ i hi; exact absurd hi (by simp)
  | cons r rs ih =>
    intro results h i hi
    simp only [runAll] at h
    cases hr : fnc r with
    | error e => rw [hr] at h; exact absurd h (by simp)
    | ok v =>
      rw [hr] at h
      cases hrs : runAll fnc rs with
      | error e => rw [hrs] at h; exact absurd h (by simp)
      | ok vs =>
        rw [hrs] at h
        cases h
        cases i with
        | zero => simpa using hr
        | succ j =>
          have hj : j < rs.length := by simpa using hi
          simpa using ih vs hrs j hj

theorem runAll_error_of_mem (fnc : List ℚ → Except String (List ℚ)) :
    ∀ rows, (∃ r ∈ rows, ∃ e, fnc r = .error e) →
    ∃ e, runAll fnc rows = .error e ∧ ∃ r ∈ rows, fnc r = .error e := by
  intro rows
  induction rows with
  | nil => rintro ⟨r, hr, _⟩; exact absurd hr (by simp)
  | cons r rs ih =>
    rintro ⟨r0, hr0, e0, he0⟩
    cases hr : fnc r with
    | error e => exact ⟨e, by simp [runAll, hr], r, by simp, hr⟩
    | ok v =>
      have hin : ∃ x ∈ rs, ∃ e, fnc x = .error e := by
        rcases List.mem_cons.mp hr0 with h | h
        · subst h; rw [hr] at he0; exact absurd he0 (by simp)
        · exact ⟨r0, h, e0, he0⟩
      obtain ⟨e, he, x, hx, hfx⟩ := ih hin
      exact ⟨e, by simp [runAll, hr, he], x, by simp [hx], hfx⟩

theorem batchLoop_inp (fmt : OUTPUT_VALUE) (fnc : List ℚ → Except String (List ℚ)) :
    ∀ (left index : Nat) (inp : List (List ℚ)) (buf : OutBufT fmt),
    (batchLoop fmt fnc index left inp buf).2 = inp := by
  intro left
  induction left with
  | zero => intro index inp buf; rfl
  | succ n ih =>
    intro index inp buf
    simp only [batchLoop]
    cases fnc (inp.getD index []) with
    | error e => rfl
    | ok res => exact ih (index + 1) inp (formatOutputArr fmt res index buf)

theorem batchLoop_spec (fmt : OUTPUT_VALUE) (fnc : List ℚ → Except String (List ℚ))
    (inp : List (List ℚ)) :
    ∀ (left index : Nat) (buf : OutBufT fmt), index + left ≤ inp.length →
    batchLoop fmt fnc index left inp buf =
      (match runAll fnc ((inp.drop index).take left) with
       | .ok results => .ok (writeAll fmt results index buf)
       | .error e => .error e,
       inp) := by
  intro left
  induction left with
  | zero => intro index buf _; simp [batchLoop, runAll, writeAll]
  | succ n ih =>
    intro index buf hle
    have hidx : index < inp.length := by omega
    have hdrop : inp.drop index = inp[index] :: inp.drop (index + 1) :=
      List.drop_eq_getElem_cons hidx
    have hgetD : inp.getD index [] = inp[index] := List.getD_eq_getElem inp [] hidx
    rw [hdrop, List.take_succ_cons]
    simp only [batchLoop, hgetD]
    cases hr : fnc inp[index] with
    | error e => simp [runAll, hr]
    | ok res =>
      dsimp only
      rw [ih (index + 1) (formatOutputArr fmt res index buf) (by omega)]
      simp only [runAll, hr]
      cases runAll fnc ((inp.drop (index + 1)).take n) with
      | error e => rfl
      | ok vs => simp [writeAll]

theorem writeAll_single (results : List (List ℚ)) :
    ∀ (index : Nat) (buf : OutBufT .SINGLE),
    writeAll .SINGLE results index buf = setEach (fun r => r.getD 0 0) results index buf := by
  induction results with
  | nil => intro index buf; rfl
  | cons r rs ih => intro index buf; simp [writeAll, setEach, formatOutputArr, ih]

theorem writeAll_triplet (results : List (List ℚ)) :
    ∀ (index : Nat) (buf : OutBufT .TRIPLET),
    writeAll .TRIPLET results index buf = setEach firstTriplet results index buf := by
  induction results with
  | nil => intro index buf; rfl
  | cons r rs ih => intro index buf; simp [writeAll, setEach, formatOutputArr, ih]

theorem writeAll_ts (results : List (List ℚ)) :
    ∀ (index : Nat) (buf : OutBufT .TRIPLET_AND_SEXTET),
    writeAll .TRIPLET_AND_SEXTET results index buf =
      (setEach firstTriplet results index buf.1, setEach lastSextet results index buf.2) := by
  induction results with
  | nil => intro index buf; rfl
  | cons r rs ih => intro index buf; simp [writeAll, setEach, formatOutputArr, ih]

theorem set_append_length {α : Type} (done : List α) (a : α) :
    ∀ (t : α) (ts : List α), (done ++ t :: ts).set done.length a = done ++ a :: ts := by
  induction done with
  | nil => intro t ts; rfl
  | cons d ds ih => intro t ts; simp only [List.cons_append, List.length_cons,
      List.set_cons_succ, ih]

theorem setEach_append {α : Type} (f : List ℚ → α) (results : List (List ℚ)) :
    ∀ (done todo : List α), todo.length = results.length →
    setEach f results done.length (done ++ todo) = done ++ results.map f := by
  induction results with
  | nil =>
    intro done todo h
    rw [List.length_eq_zero.mp h]
    simp [setEach]
  | cons r rs ih =>
    intro done todo h
    cases todo with
    | nil => exact absurd h (by simp)
    | cons t ts =>
      simp only [setEach, set_append_length]
      have h2 : ts.length = rs.length := by simpa using h
      have h3 : done ++ f r :: ts = (done ++ [f r]) ++ ts := by simp
      have h4 : done.length + 1 = (done ++ [f r]).length := by simp
      rw [h3, h4, ih (done ++ [f r]) ts h2]
      simp

theorem setEach_replicate {α : Type} (f : List ℚ → α) (results : List (List ℚ)) (d : α) :
    setEach f results 0 (List.replicate results.length d) = results.map f := by
  have h := setEach_append f results [] (List.replicate results.length d) (by simp)
  simpa using h

theorem range_map_getD (r : List ℚ) (n k : Nat) (h : n + k ≤ r.length) :
    (List.range k).map (fun d => r.getD (d + n) 0) = (r.drop n).take k := by
  apply List.ext_getElem?
  intro i
  rw [List.getElem?_map]
  by_cases hik : i < k
  · have hlen : n + i < r.length := by omega
    have h2 : r.getD (i + n) 0 = r[n + i] := by
      rw [Nat.add_comm i n]
      exact List.getD_eq_getElem r 0 hlen
    rw [List.getElem?_range hik, List.getElem?_take, if_pos hik, List.getElem?_drop,
        List.getElem?_eq_getElem hlen]
    simp [h2]
    rw [Nat.add_comm i n, List.getElem?_eq_getElem hlen]
    rfl
  · rw [List.getElem?_eq_none (by simpa using hik), List.getElem?_take, if_neg hik]
    rfl

theorem firstTriplet_eq_take (r : List ℚ) (h : 3 ≤ r.length) :
    firstTriplet r = r.take 3 := by
  have h0 := range_map_getD r 0 3 (by omega)
  simpa [firstTriplet] using h0

theorem lastSextet_eq_drop (r : List ℚ) (h : r.length = 9) :
    lastSextet r = r.drop 3 := by
  have h0 := range_map_getD r 3 6 (by omega)
  rw [lastSextet, h0, List.take_of_length_le (by simp [h])]

theorem call_batch_char (a : INPUT_VALUE) (fmt : OUTPUT_VALUE)
    (fnc : List ℚ → Except String (List ℚ)) (rows : List (List ℚ)) :
    callAnyFunctionOnArray a fmt fnc (.arr2 (inputLength a) rows) =
      (match runAll fnc rows with
       | .ok results => .ok (batchOutput fmt results)
       | .error e => .error (.exception ("Exception occured: " ++ e)),
       .arr2 (inputLength a) rows) := by
  have hloop := batchLoop_spec fmt fnc rows rows.length 0
      (allocOutputArr fmt rows.length) (by omega)
  simp only [List.drop_zero, List.take_length] at hloop
  simp only [callAnyFunctionOnArray, if_pos rfl, hloop]
  cases hall : runAll fnc rows with
  | error e => simp
  | ok results =>
    have hlen : results.length = rows.length := runAll_length fnc rows results hall
    simp only
    cases fmt with
    | SINGLE =>
      rw [writeAll_single]
      simp only [allocOutputArr, ← hlen, setEach_replicate, bufToPy, batchOutput]
      simp
    | TRIPLET =>
      rw [writeAll_triplet]
      simp only [allocOutputArr, ← hlen, setEach_replicate, bufToPy, batchOutput]
      simp
    | TRIPLET_AND_SEXTET =>
      rw [writeAll_ts]
      simp only [allocOutputArr, ← hlen, setEach_replicate, bufToPy, batchOutput]
      simp

/-! ## Claims about particles_base.h -/

/-- Claim C2, counterexample: appending a negative weight is NOT rejected and
does NOT leave the collection unchanged: PointMassArray::add performs no
weight validation, so adding weight -1 to an empty collection yields a
collection of size 1 containing the new element. -/
theorem add_negative_weight_not_rejected :
    ((⟨[]⟩ : PointMassArray ℚ).add 0 (-1)).size = 1 ∧
    ((⟨[]⟩ : PointMassArray ℚ).add 0 (-1)).data = [(0, -1)] :=
  ⟨rfl, rfl⟩

/-- Claim C2, amended: append(entity, w) performs no weight validation; for
every weight w, including w < 0, it appends (entity, w) at the end: the size
grows by one, the previously stored elements are unchanged, and the new last
element is (entity, w).  No InvalidArgument failure occurs. -/
theorem add_appends_unconditionally {P : Type} (arr : PointMassArray P)
    (first : P) (second : ℚ) :
    (arr.add first second).size = arr.size + 1 ∧
    (∀ i, i < arr.size → (arr.add first second).data[i]? = arr.data[i]?) ∧
    (arr.add first second).data[arr.size]? = some (first, second) := by
  refine ⟨by simp [PointMassArray.add, PointMassArray.size], ?_, ?_⟩
  · intro i hi
    have hlen : i < arr.data.length := hi
    simp only [PointMassArray.add]
    rw [List.getElem?_append, if_pos hlen]
  · simp only [PointMassArray.add, PointMassArray.size]
    exact List.getElem?_concat_length arr.data (first, second)

/-- Claim C2, witness for the amended statement at a concrete input. -/
theorem add_appends_unconditionally_witness :
    ((⟨[(5, 2)]⟩ : PointMassArray ℚ).add 7 (-1)).size = 2 ∧
    ((⟨[(5, 2)]⟩ : PointMassArray ℚ).add 7 (-1)).data[1]? = some ((7 : ℚ), (-1 : ℚ)) := by
  have h := add_appends_unconditionally (⟨[(5, 2)]⟩ : PointMassArray ℚ) 7 (-1)
  exact ⟨h.1, h.2.2⟩

/-- Claim C4: for every valid (R1, R2) conversion pair (an entry conv of the
strategy table) and every source collection of K elements, the conversion
constructor yields a collection of exactly K elements, in the same order,
where element i is (conv applied to the entity of source element i, unchanged
source weight); consequently the total weight is preserved. -/
theorem conversion_preserves_elements (PosC PosVelC : CoordT → Type)
    (toPosVel : (sc : CoordT) → (dc : CoordT) → PosVelC sc → PosVelC dc)
    (toPosFromVel : (sc : CoordT) → (dc : CoordT) → PosVelC sc → PosC dc)
    (toPos : (sc : CoordT) → (dc : CoordT) → PosC sc → PosC dc)
    (sk : PKind) (sc : CoordT) (dk : PKind) (dc : CoordT)
    (conv : ParticleTy PosC PosVelC sk sc → ParticleTy PosC PosVelC dk dc)
    (_hvalid : converterFor PosC PosVelC toPosVel toPosFromVel toPos sk sc dk dc = some conv)
    (src : PointMassArray (ParticleTy PosC PosVelC sk sc)) :
    (PointMassArray.ofOther conv src).size = src.size ∧
    (∀ i : Nat, (PointMassArray.ofOther conv src).data[i]? =
      (src.data[i]?).map (fun e => (conv e.1, e.2))) ∧
    (PointMassArray.ofOther conv src).totalMass = src.totalMass := by
  refine ⟨by simp [PointMassArray.ofOther, PointMassArray.size], ?_, ?_⟩
  · intro i
    simp [PointMassArray.ofOther, List.getElem?_map]
  · rw [totalMass_eq_sum, totalMass_eq_sum]
    simp only [PointMassArray.ofOther, List.map_map]
    rfl

/-- Claim C4, witness: the posvel-to-pos strategy applied to a concrete
two-element collection. -/
theorem conversion_preserves_elements_witness :
    (PointMassArray.ofOther (fun q : ℚ => q + 1) (⟨[(1, 2), (3, 4)]⟩ : PointMassArray ℚ)).size = 2 ∧
    (PointMassArray.ofOther (fun q : ℚ => q + 1) (⟨[(1, 2), (3, 4)]⟩ : PointMassArray ℚ)).totalMass = 6 := by
  have h := conversion_preserves_elements (fun _ => ℚ) (fun _ => ℚ)
    (fun _ _ q => q) (fun _ _ q => q + 1) (fun _ _ q => q)
    .posVel .Car .pos .Cyl (fun q => q + 1) rfl ⟨[(1, 2), (3, 4)]⟩
  exact ⟨h.1, h.2.2.trans (by norm_num [PointMassArray.totalMass, List.foldl])⟩

/-- Claim C7: the conversion strategy table has a strategy for exactly the
three kind pairs posvel-to-posvel, posvel-to-pos and pos-to-pos (each across
every coordinate-system pair), and no strategy for pos-to-posvel: that
Converter specialization does not exist (a build-time link failure in the
source, modelled as none in the static table), so the conversion can never
fail at run time. -/
theorem converter_strategy_table (PosC PosVelC : CoordT → Type)
    (toPosVel : (sc : CoordT) → (dc : CoordT) → PosVelC sc → PosVelC dc)
    (toPosFromVel : (sc : CoordT) → (dc : CoordT) → PosVelC sc → PosC dc)
    (toPos : (sc : CoordT) → (dc : CoordT) → PosC sc → PosC dc) :
    (∀ sk dk : PKind,
      (∀ sc dc : CoordT,
        (converterFor PosC PosVelC toPosVel toPosFromVel toPos sk sc dk dc).isSome = true) ↔
      ¬(sk = .pos ∧ dk = .posVel)) ∧
    (∀ sc dc : CoordT,
      converterFor PosC PosVelC toPosVel toPosFromVel toPos .pos sc .posVel dc = none) := by
  constructor
  · intro sk dk
    constructor
    · rintro hAll ⟨hs, hd⟩
      subst hs; subst hd
      have h := hAll .Car .Car
      simp [converterFor] at h
    · intro hne sc dc
      cases sk <;> cases dk <;> simp [converterFor]
      exact hne ⟨rfl, rfl⟩
  · intro sc dc
    rfl

/-- Claim C7, witness: with concrete carriers and transform primitives, the
pos-to-posvel entry of the table is empty. -/
theorem converter_strategy_table_witness :
    converterFor (fun _ => ℚ) (fun _ => ℚ)
      (fun _ _ q => q) (fun _ _ q => q) (fun _ _ q => q) .pos .Car .posVel .Cyl = none :=
  (converter_strategy_table (fun _ => ℚ) (fun _ => ℚ)
    (fun _ _ q => q) (fun _ _ q => q) (fun _ _ q => q)).2 .Car .Cyl

/-- Claim C8: totalMass() returns the sum of the weights of all elements, and
on the empty collection it returns 0. -/
theorem totalMass_spec {P : Type} (arr : PointMassArray P) :
    arr.totalMass = (arr.data.map Prod.snd).sum ∧
    (⟨[]⟩ : PointMassArray P).totalMass = 0 :=
  ⟨totalMass_eq_sum arr, rfl⟩

/-! ## Claims about callAnyFunctionOnArray -/

/-- Claim C1: for every 2-d input array of N rows by arity columns that the
batch path evaluates successfully, row i of the batch output equals the
result of invoking the dispatcher on row i alone as a flat single-point
argument list; in particular a batch of one row yields the same values as the
single-point call. -/
theorem batch_row_equals_single_point (a : INPUT_VALUE) (fmt : OUTPUT_VALUE)
    (fnc : List ℚ → Except String (List ℚ)) (rows : List (List ℚ))
    (out : PyOutput) (i : Nat)
    (hrect : ∀ r ∈ rows, r.length = inputLength a)
    (hi : i < rows.length)
    (hok : (callAnyFunctionOnArray a fmt fnc (.arr2 (inputLength a) rows)).1 = .ok out) :
    ∃ t, (callAnyFunctionOnArray a fmt fnc (.nums (rows.getD i []))).1 = .ok t ∧
      outputRow fmt out i = some t := by
  cases hall : runAll fnc rows with
  | error e =>
    have hchar := congrArg Prod.fst (call_batch_char a fmt fnc rows)
    rw [hall] at hchar
    rw [hok] at hchar
    exact absurd hchar (by simp)
  | ok results =>
    have hchar := congrArg Prod.fst (call_batch_char a fmt fnc rows)
    rw [hall] at hchar
    rw [hok] at hchar
    have hout : out = batchOutput fmt results := by
      exact (Except.ok.injEq _ _).mp hchar
    have hlenr : results.length = rows.length := runAll_length fnc rows results hall
    have hrowlen : (rows.getD i []).length = inputLength a := by
      have hmem : rows.getD i [] ∈ rows := by
        rw [List.getD_eq_getElem rows [] hi]
        exact List.getElem_mem hi
      exact hrect _ hmem
    have hfnc : fnc (rows.getD i []) = .ok (results.getD i []) :=
      runAll_getD fnc rows results hall i hi
    have hi2 : i < results.length := by omega
    refine ⟨formatTuple fmt (results.getD i []), ?_, ?_⟩
    · have hxs : parseTuple a (rows.getD i []) = some (rows.getD i []) := by
        unfold parseTuple
        rw [if_pos hrowlen]
      simp only [callAnyFunctionOnArray, hxs, hfnc]
    · subst hout
      cases fmt with
      | SINGLE =>
        simp [batchOutput, outputRow, formatTuple, List.getElem?_map,
          List.getElem?_eq_getElem hi2, List.getD_eq_getElem results [] hi2]
      | TRIPLET =>
        simp [batchOutput, outputRow, formatTuple, List.getElem?_map,
          List.getElem?_eq_getElem hi2, List.getD_eq_getElem results [] hi2]
      | TRIPLET_AND_SEXTET =>
        simp [batchOutput, outputRow, formatTuple, List.getElem?_map,
          List.getElem?_eq_getElem hi2, List.getD_eq_getElem results [] hi2]

/-- Claim C1, witness: the second row of a concrete two-row batch agrees with
the single-point call on that row. -/
theorem batch_row_equals_single_point_witness :
    ∃ t, (callAnyFunctionOnArray .TRIPLET .TRIPLET (fun r => .ok r)
        (.nums [(4 : ℚ), 5, 6])).1 = .ok t ∧
      outputRow .TRIPLET (.arr2d [[1, 2, 3], [4, 5, 6]]) 1 = some t :=
  batch_row_equals_single_point .TRIPLET .TRIPLET (fun r => .ok r)
    [[1, 2, 3], [4, 5, 6]] (.arr2d [[1, 2, 3], [4, 5, 6]]) 1
    (by decide) (by decide) (by rfl)

/-- Claim C3: a flat list of exactly arity numbers, or a 1-d array of length
arity, is treated as a single point and yields a single formatted result; a
2-d array whose second dimension equals the arity is treated as N points with
N the first dimension; any other array shape fails with the InvalidShape
error carrying the arity-specific diagnostic message, and no output is
produced. -/
theorem input_shape_dispatch (a : INPUT_VALUE) (fmt : OUTPUT_VALUE)
    (fnc : List ℚ → Except String (List ℚ)) :
    (∀ xs v, xs.length = inputLength a → fnc xs = .ok v →
      (callAnyFunctionOnArray a fmt fnc (.nums xs)).1 = .ok (formatTuple fmt v)) ∧
    (∀ xs v, xs.length = inputLength a → fnc xs = .ok v →
      (callAnyFunctionOnArray a fmt fnc (.arr1 xs)).1 = .ok (formatTuple fmt v)) ∧
    (∀ rows results, runAll fnc rows = .ok results →
      (callAnyFunctionOnArray a fmt fnc (.arr2 (inputLength a) rows)).1 =
        .ok (batchOutput fmt results) ∧ results.length = rows.length) ∧
    (∀ xs, xs.length ≠ inputLength a →
      (callAnyFunctionOnArray a fmt fnc (.arr1 xs)).1 =
        .error (.invalidShape (errStrInvalidArrayDim a))) ∧
    (∀ d2 rows, d2 ≠ inputLength a →
      (callAnyFunctionOnArray a fmt fnc (.arr2 d2 rows)).1 =
        .error (.invalidShape (errStrInvalidArrayDim a))) ∧
    (callAnyFunctionOnArray a fmt fnc .arrOther).1 =
      .error (.invalidShape (errStrInvalidArrayDim a)) := by
  refine ⟨?_, ?_, ?_, ?_, ?_, rfl⟩
  · intro xs v hlen hv
    simp [callAnyFunctionOnArray, parseTuple, hlen, hv]
  · intro xs v hlen hv
    simp [callAnyFunctionOnArray, hlen, hv]
  · intro rows results hall
    have hchar := congrArg Prod.fst (call_batch_char a fmt fnc rows)
    rw [hall] at hchar
    exact ⟨hchar, runAll_length fnc rows results hall⟩
  · intro xs hne
    simp [callAnyFunctionOnArray, hne]
  · intro d2 rows hne
    simp [callAnyFunctionOnArray, hne]

/-- Claim C3, witness: a 1-by-4 array against arity 3 is rejected with the
arity-specific InvalidShape message. -/
theorem input_shape_dispatch_witness :
    (callAnyFunctionOnArray .TRIPLET .SINGLE (fun r => .ok [r.getD 0 0])
        (.arr2 4 [[1, 2, 3, 4]])).1 =
      .error (.invalidShape "Input does not contain valid Nx3 array") :=
  (input_shape_dispatch .TRIPLET .SINGLE (fun r => .ok [r.getD 0 0])).2.2.2.2.1
    4 [[1, 2, 3, 4]] (by decide)

/-- Claim C5: with the combined triplet-and-sextet output shape, a batch of N
points returns two separately allocated buffers of shapes N-by-3 and N-by-6,
where row i of buffer 1 holds the first 3 values and row i of buffer 2 holds
the last 6 values of the 9-value per-point result; a single point returns two
separate tuples of lengths 3 and 6, never one interleaved buffer. -/
theorem combined_output_two_buffers (a : INPUT_VALUE)
    (fnc : List ℚ → Except String (List ℚ)) :
    (∀ rows results, runAll fnc rows = .ok results → (∀ r ∈ results, r.length = 9) →
      (callAnyFunctionOnArray a .TRIPLET_AND_SEXTET fnc (.arr2 (inputLength a) rows)).1 =
        .ok (.arrPair (results.map (fun r => r.take 3)) (results.map (fun r => r.drop 3))) ∧
      (results.map (fun r => r.take 3)).length = rows.length ∧
      (results.map (fun r => r.drop 3)).length = rows.length ∧
      (∀ r ∈ results, (r.take 3).length = 3 ∧ (r.drop 3).length = 6)) ∧
    (∀ xs v, xs.length = inputLength a → fnc xs = .ok v → v.length = 9 →
      (callAnyFunctionOnArray a .TRIPLET_AND_SEXTET fnc (.nums xs)).1 =
        .ok (.tupPair (v.take 3) (v.drop 3))) := by
  constructor
  · intro rows results hall h9
    have hchar := congrArg Prod.fst (call_batch_char a .TRIPLET_AND_SEXTET fnc rows)
    rw [hall] at hchar
    have hmap1 : results.map firstTriplet = results.map (fun r => r.take 3) :=
      List.map_congr_left (fun r hr => firstTriplet_eq_take r (by rw [h9 r hr]; omega))
    have hmap2 : results.map lastSextet = results.map (fun r => r.drop 3) :=
      List.map_congr_left (fun r hr => lastSextet_eq_drop r (h9 r hr))
    have hlenr : results.length = rows.length := runAll_length fnc rows results hall
    refine ⟨?_, by simp [hlenr], by simp [hlenr], ?_⟩
    · rw [hchar]
      simp only [batchOutput]
      rw [hmap1, hmap2]
    · intro r hr
      constructor
      · simp [List.length_take, h9 r hr]
      · simp [List.length_drop, h9 r hr]
  · intro xs v hlen hv h9
    have ht : firstTriplet v = v.take 3 := firstTriplet_eq_take v (by omega)
    have hs : lastSextet v = v.drop 3 := lastSextet_eq_drop v h9
    simp [callAnyFunctionOnArray, parseTuple, hlen, hv, formatTuple, ht, hs]

/-- Claim C5, witness: a concrete two-point batch with a constant 9-value
result yields the pair of a 2-by-3 and a 2-by-6 buffer. -/
theorem combined_output_two_buffers_witness :
    (callAnyFunctionOnArray .TRIPLET .TRIPLET_AND_SEXTET
        (fun _ => .ok [1, 2, 3, 4, 5, 6, 7, 8, 9])
        (.arr2 3 [[0, 0, 0], [1, 1, 1]])).1 =
      .ok (.arrPair [[1, 2, 3], [1, 2, 3]] [[4, 5, 6, 7, 8, 9], [4, 5, 6, 7, 8, 9]]) := by
  have h := (combined_output_two_buffers .TRIPLET
      (fun _ => .ok [1, 2, 3, 4, 5, 6, 7, 8, 9])).1
    [[0, 0, 0], [1, 1, 1]] [[1, 2, 3, 4, 5, 6, 7, 8, 9], [1, 2, 3, 4, 5, 6, 7, 8, 9]]
    rfl (by decide)
  exact h.1

/-- Claim C6: an exception raised by the computation function during a
single-point or batch invocation aborts the whole call and is surfaced as the
recoverable error value; the call result is an error, so no partially-filled
output buffer from the aborted batch is returned. -/
theorem exception_aborts_whole_call (a : INPUT_VALUE) (fmt : OUTPUT_VALUE)
    (fnc : List ℚ → Except String (List ℚ)) :
    (∀ xs e, xs.length = inputLength a → fnc xs = .error e →
      (callAnyFunctionOnArray a fmt fnc (.nums xs)).1 =
        .error (.exception ("Exception occured: " ++ e))) ∧
    (∀ rows, (∃ r ∈ rows, ∃ e, fnc r = .error e) →
      (∃ e, (callAnyFunctionOnArray a fmt fnc (.arr2 (inputLength a) rows)).1 =
          .error (.exception ("Exception occured: " ++ e))) ∧
      ∀ out, (callAnyFunctionOnArray a fmt fnc (.arr2 (inputLength a) rows)).1 ≠ .ok out) := by
  constructor
  · intro xs e hlen he
    simp [callAnyFunctionOnArray, parseTuple, hlen, he]
  · intro rows hex
    obtain ⟨e, he, -⟩ := runAll_error_of_mem fnc rows hex
    have hchar := congrArg Prod.fst (call_batch_char a fmt fnc rows)
    rw [he] at hchar
    refine ⟨⟨e, hchar⟩, ?_⟩
    intro out h
    rw [hchar] at h
    exact absurd h (by simp)

/-- Claim C6, witness: a single-point call whose computation function throws
is surfaced as the wrapped exception message. -/
theorem exception_aborts_whole_call_witness :
    (callAnyFunctionOnArray .TRIPLET .SINGLE
        (fun _ => .error "bad input") (.nums [(1 : ℚ), 2, 3])).1 =
      .error (.exception ("Exception occured: " ++ "bad input")) :=
  (exception_aborts_whole_call .TRIPLET .SINGLE (fun _ => .error "bad input")).1
    [(1 : ℚ), 2, 3] "bad input" (by decide) rfl

/-- Claim C9: the dispatcher never mutates the caller-supplied input values:
after any call, single-point or batch, successful or failed, the final
contents of the argument data equal the initial contents. -/
theorem input_never_mutated (a : INPUT_VALUE) (fmt : OUTPUT_VALUE)
    (fnc : List ℚ → Except String (List ℚ)) (input : PyInput) :
    (callAnyFunctionOnArray a fmt fnc input).2 = input := by
  cases input with
  | nums xs =>
    simp only [callAnyFunctionOnArray]
    cases parseTuple a xs with
    | some v => rfl
    | none =>
      by_cases h1 : xs.length = 1
      · simp [h1]
      · simp [h1]
  | arr1 xs =>
    simp only [callAnyFunctionOnArray]
    by_cases h1 : xs.length = inputLength a
    · simp [h1]
    · simp [h1]
  | arr2 d2 rows =>
    simp only [callAnyFunctionOnArray]
    by_cases h1 : d2 = inputLength a
    · simp only [h1, if_pos rfl]
      have hinp := batchLoop_inp fmt fnc rows.length 0 rows (allocOutputArr fmt rows.length)
      cases hbl : batchLoop fmt fnc 0 rows.length rows (allocOutputArr fmt rows.length) with
      | mk res inp2 =>
        rw [hbl] at hinp
        cases res <;> simp_all
    · simp [h1]
  | arrOther => rfl
  | notAnArray => rfl

/-- Claim C10: a 2-d input array with zero rows and second dimension equal to
the arity is accepted, not rejected as InvalidShape: the dispatcher returns
the freshly allocated empty output buffer(s) of length 0, and the result does
not depend on the computation function, which is never invoked. -/
theorem empty_batch_accepted (a : INPUT_VALUE) (fmt : OUTPUT_VALUE)
    (fnc g : List ℚ → Except String (List ℚ)) :
    (callAnyFunctionOnArray a fmt fnc (.arr2 (inputLength a) [])).1 =
      .ok (bufToPy fmt (allocOutputArr fmt 0)) ∧
    callAnyFunctionOnArray a fmt fnc (.arr2 (inputLength a) []) =
      callAnyFunctionOnArray a fmt g (.arr2 (inputLength a) []) ∧
    bufToPy .SINGLE (allocOutputArr .SINGLE 0) = .arr1d [] ∧
    bufToPy .TRIPLET (allocOutputArr .TRIPLET 0) = .arr2d [] ∧
    bufToPy .TRIPLET_AND_SEXTET (allocOutputArr .TRIPLET_AND_SEXTET 0) = .arrPair [] [] := by
  refine ⟨?_, ?_, rfl, rfl, rfl⟩
  · simp [callAnyFunctionOnArray, batchLoop]
  · simp [callAnyFunctionOnArray, batchLoop]
